import Mathlib

/-!
Verification of `simple_xml_to_parquet.py` (class `MultiNestedXMLToParquet`).

The source is shallowly embedded: XML elements become an inductive tree,
Python dicts become insertion-ordered association lists with in-place
update semantics, the `iterparse` event loop becomes a fold over the
document's end-events, the generator's aliasing of the single working
dict is modelled with an explicit store of record objects indexed by
position, and `convert_to_parquet`'s chunking/merge/dedup/cleanup is a
pure function over the list of emitted rows.
-/

/-- A Python dict of string keys and values: insertion-ordered assoc list. -/
abbrev Dict := List (String × String)

/-- `k in d` for a Python dict. -/
def dictContains (d : Dict) (k : String) : Bool :=
  d.any (fun kv => kv.1 == k)

/-- `d[k] = v` for a Python dict: replace in place if present, else append. -/
def dictSet (d : Dict) (k : String) (v : String) : Dict :=
  if dictContains d k then d.map (fun kv => if kv.1 == k then (k, v) else kv)
  else d ++ [(k, v)]

/-- `d.update(kvs)` for a Python dict: successive `d[k] = v` in order. -/
def dictUpdate (d : Dict) (kvs : List (String × String)) : Dict :=
  kvs.foldl (fun a kv => dictSet a kv.1 kv.2) d

/-- `d.get(k)` for a Python dict. -/
def dictLookup (d : Dict) (k : String) : Option String :=
  (d.find? (fun kv => kv.1 == k)).map (fun kv => kv.2)

/-- An XML element as built by `xml.etree.ElementTree`: tag, attributes,
text, children. -/
inductive Element where
  | mk (tag : String) (attrib : Dict) (text : Option String) (children : List Element)

def Element.tag : Element → String
  | .mk t _ _ _ => t

def Element.attrib : Element → Dict
  | .mk _ a _ _ => a

def Element.text : Element → Option String
  | .mk _ _ x _ => x

def Element.children : Element → List Element
  | .mk _ _ _ c => c

/-- The same element with its tag replaced. -/
def Element.withTag : Element → String → Element
  | .mk _ a x cs, t => .mk t a x cs

/-- Python `str.strip()` whitespace set. -/
def isPySpace (c : Char) : Bool :=
  c = ' ' || c = '\t' || c = '\n' || c = '\r' || c = '\x0b' || c = '\x0c'

/-- Python `s.strip()`. -/
def pyStrip (s : String) : String :=
  ⟨((s.data.dropWhile isPySpace).reverse.dropWhile isPySpace).reverse⟩

/-- `remove_namespace` (lines 30-33): `tag.split('}', 1)[-1] if '}' in tag
else tag`, i.e. everything after the first `\x7d` when one occurs. -/
def remove_namespace (tag : String) : String :=
  if tag.data.contains '}' then ⟨(tag.data.dropWhile (fun c => c != '}')).drop 1⟩
  else tag

mutual

/-- `flatten_element` (lines 35-43): fold the children's flattenings into
`items`, then the element's stripped text under `parent_key`, then each
attribute under `parent_key ++ "_" ++ stripped name`. -/
def flatten_element : Element → String → Dict
  | .mk _ attrib text children, parent_key =>
    let items := flattenChildren children parent_key []
    let items := match text with
      | some t => if pyStrip t ≠ "" then dictSet items parent_key (pyStrip t) else items
      | none => items
    dictUpdate items (attrib.map (fun kv => (parent_key ++ "_" ++ remove_namespace kv.1, kv.2)))

/-- The `for child in element: items.update(flatten_element(child, child_key))`
loop of `flatten_element` (lines 37-39). -/
def flattenChildren : List Element → String → Dict → Dict
  | [], _, acc => acc
  | c :: cs, parent_key, acc =>
    let child_key := if parent_key ≠ "" then parent_key ++ "_" ++ remove_namespace c.tag
      else remove_namespace c.tag
    flattenChildren cs parent_key (dictUpdate acc (flatten_element c child_key))

end

mutual

/-- The `end` events delivered by `ET.iterparse` for a subtree, in document
order: children's end events first, then the element's own. -/
def endEvents : Element → List Element
  | .mk t a x cs => endEventsList cs ++ [.mk t a x cs]

def endEventsList : List Element → List Element
  | [] => []
  | c :: cs => endEvents c ++ endEventsList cs

end

/-- State of the `parse_xml_to_dict` loop. The generator repeatedly mutates
and re-yields the one working dict object, so records live in a `store` of
dict objects; `cur` is the index of the working record and `yields` the
indices yielded so far, in order. -/
structure PState where
  store : List Dict
  cur : Nat
  yields : List Nat

/-- `record = {}` before the loop (line 49). -/
def initState : PState :=
  { store := [[]], cur := 0, yields := [] }

/-- The `for key, value in flattened.items()` consolidation loop
(lines 62-67): a colliding key's value goes to `key ++ "_alt"`. -/
def mergeRecord (d : Dict) (flattened : Dict) : Dict :=
  flattened.foldl
    (fun rec kv =>
      if dictContains rec kv.1 then dictSet rec (kv.1 ++ "_alt") kv.2
      else dictSet rec kv.1 kv.2)
    d

/-- One iteration of the event loop (lines 50-71) on an end event. -/
def parse_step (s : PState) (e : Element) : PState :=
  let tag := remove_namespace e.tag
  if tag = "situation" then
    match dictLookup e.attrib "id" with
    | some i =>
      { store := s.store ++ [[("situation_id", i)]], cur := s.store.length, yields := s.yields }
    | none => s
  else if tag = "situationRecord" then
    let flattened := flatten_element e ""
    let merged := mergeRecord (s.store.getD s.cur []) flattened
    { store := s.store.set s.cur merged, cur := s.cur, yields := s.yields ++ [s.cur] }
  else s

/-- Run the event loop over a list of end events from a given state. -/
def parseEvents (s : PState) (events : List Element) : PState :=
  events.foldl parse_step s

/-- `parse_xml_to_dict` on a whole document: process every end event of the
tree rooted at `root` (starts are skipped by the loop). -/
def parse_xml_to_dict (root : Element) : PState :=
  parseEvents initState (endEvents root)

/-- The rows of the generator as its consumer materializes them after the
run: each yielded reference resolved in the final store. -/
def emittedRows (s : PState) : List Dict :=
  s.yields.map (fun i => s.store.getD i [])

/-- Result of a successful `convert_to_parquet` run: names of the
intermediate chunk files created, those still on disk afterwards, and the
rows of the final output file. -/
structure ConvResult where
  tempsCreated : List String
  tempsRemaining : List String
  output : Option (List Dict)

/-- One iteration of the writer loop (lines 78-93): append a truthy record
to the chunk buffer, and flush the buffer to a new intermediate file when
`(idx + 1) % chunk_size == 0` and the buffer is non-empty. State is
(intermediate files written, chunk buffer, index of next record). -/
def chunkStep (B : Nat) (st : List (List Dict) × List Dict × Nat) (r : Dict) :
    List (List Dict) × List Dict × Nat :=
  let temps := st.1
  let chunks := if r.isEmpty then st.2.1 else st.2.1 ++ [r]
  let idx := st.2.2
  if (idx + 1) % B == 0 && !chunks.isEmpty then (temps ++ [chunks], [], idx + 1)
  else (temps, chunks, idx + 1)

/-- Contents of the intermediate chunk files, in creation order: the writer
loop plus the final partial flush (lines 96-101). -/
def tempBatches (B : Nat) (records : List Dict) : List (List Dict) :=
  let st := records.foldl (chunkStep B) ([], [], 0)
  if st.2.1.isEmpty then st.1 else st.1 ++ [st.2.1]

/-- Row equality as pandas `drop_duplicates` sees it after the concat: all
columns equal, where a key absent from a row is a null. -/
def rowEquiv (r1 r2 : Dict) : Bool :=
  (r1.map Prod.fst ++ r2.map Prod.fst).all (fun k => dictLookup r1 k == dictLookup r2 k)

/-- `drop_duplicates` worker: keep a row unless an earlier kept row is equal
on all columns. -/
def dedupSeen : List Dict → List Dict → List Dict
  | [], _ => []
  | r :: rs, seen =>
    if seen.any (fun p => rowEquiv p r) then dedupSeen rs seen
    else r :: dedupSeen rs (r :: seen)

/-- `combined_df.drop_duplicates()` (line 107). -/
def drop_duplicates (rows : List Dict) : List Dict := dedupSeen rows []

/-- `convert_to_parquet` (lines 73-117) with the chunk size as a parameter:
batch the records to intermediate files, fail like `pd.concat([])` when no
intermediate file was written, else concatenate in creation order, drop
duplicate rows, write the output, and delete every intermediate file. -/
def convertModel (B : Nat) (records : List Dict) : Except String ConvResult :=
  let temps := tempBatches B records
  let names := (List.range temps.length).map (fun i => "temp_chunk_" ++ toString i ++ ".parquet")
  if temps.isEmpty then .error "No objects to concatenate"
  else .ok { tempsCreated := names,
             tempsRemaining := names.foldl (fun fs n => fs.erase n) names,
             output := some (drop_duplicates temps.flatten) }

/-- `convert_to_parquet` with the source's `chunk_size = 10000` (line 74). -/
def convert_to_parquet (records : List Dict) : Except String ConvResult :=
  convertModel 10000 records

/-- Rows of the final output file of a run, when one was written. -/
def outputOf (r : Except String ConvResult) : Option (List Dict) :=
  match r with
  | .ok c => c.output
  | .error _ => none

/-- The one-batch reference table of the spec's chunk/merge equivalence
property ("materializing the entire sequence as a single batch and
deduplicating it"): the writer run with a batch size exceeding the sequence
length, so the whole sequence lands in a single intermediate batch. -/
def single_batch_output (records : List Dict) : Option (List Dict) :=
  outputOf (convertModel (records.length + 1) records)

/-- A `situationRecord` element with one nested child `<x>v</x>`. -/
def recEl (x v : String) : Element :=
  .mk "situationRecord" [] none [.mk x [] (some v) []]

/-- A child chain `<a><b><c>v</c></b></a>`. -/
def chainEl (a b c v : String) : Element :=
  .mk a [] none [.mk b [] none [.mk c [] (some v) []]]

/-- The end-to-end scenario document: one grouping element `id="S1"`
holding one record element with attribute `unit="kmh"` and nested child
`<speed>80</speed>`. -/
def c1doc : Element :=
  .mk "situation" [("id", "S1")] none
    [.mk "situationRecord" [("unit", "kmh")] none [.mk "speed" [] (some "80") []]]

/-- A grouping element with two record-element siblings whose flattenings
share the key `x` (values `v1` then `v2`). -/
def c2doc (x v1 v2 : String) : Element :=
  .mk "situation" [("id", "S1")] none [recEl x v1, recEl x v2]

/-- A well-formed document whose only record element is empty and not
preceded by any grouping element. -/
def c3doc : Element :=
  .mk "root" [] none [.mk "situationRecord" [] none []]

/-- A grouping element with three record-element siblings all flattening to
the same key `x` (values `v1`, `v2`, `v3`): two successive collisions. -/
def c4doc : Element :=
  .mk "situation" [("id", "S1")] none [recEl "x" "v1", recEl "x" "v2", recEl "x" "v3"]

/-- A subtree containing two descendant chains `a/b/c`, with texts `v`
then `w`. -/
def c6doc : Element :=
  .mk "r" [] none [chainEl "a" "b" "c" "v", chainEl "a" "b" "c" "w"]

theorem dictContains_cons (kv : String × String) (d : Dict) (k : String) :
    dictContains (kv :: d) k = (kv.1 == k || dictContains d k) := by
  simp [dictContains]

theorem dictLookup_cons_of_eq {kv : String × String} {k : String} (d : Dict) (h : kv.1 = k) :
    dictLookup (kv :: d) k = some kv.2 := by
  unfold dictLookup
  rw [List.find?_cons_of_pos _ (by simpa using h)]
  rfl

theorem dictLookup_cons_of_ne {kv : String × String} {k : String} (d : Dict) (h : kv.1 ≠ k) :
    dictLookup (kv :: d) k = dictLookup d k := by
  unfold dictLookup
  rw [List.find?_cons_of_neg _ (by simpa using h)]

theorem dictContains_eq_isSome (d : Dict) (k : String) :
    dictContains d k = (dictLookup d k).isSome := by
  induction d with
  | nil => rfl
  | cons kv rest ih =>
    by_cases h : kv.1 = k
    · rw [dictContains_cons, dictLookup_cons_of_eq rest h]
      simp [h]
    · rw [dictContains_cons, dictLookup_cons_of_ne rest h]
      simp [h, ih]

theorem dictLookup_eq_none_of_not_contains (d : Dict) (k : String)
    (h : dictContains d k = false) : dictLookup d k = none := by
  rw [dictContains_eq_isSome] at h
  exact Option.eq_none_of_isNone (by simpa using h)

theorem dictLookup_map_setKey_ne (d : Dict) (k v k' : String) (hne : k' ≠ k) :
    dictLookup (d.map (fun kv => if kv.1 == k then (k, v) else kv)) k' = dictLookup d k' := by
  induction d with
  | nil => rfl
  | cons kv rest ih =>
    simp only [List.map_cons]
    by_cases h : kv.1 = k
    · rw [show (if (kv.1 == k) = true then (k, v) else kv) = (k, v) by simp [h]]
      rw [dictLookup_cons_of_ne _ (show (k, v).1 ≠ k' from fun he => hne he.symm)]
      rw [dictLookup_cons_of_ne _ (show kv.1 ≠ k' from fun he => hne (h.symm.trans he).symm)]
      exact ih
    · rw [show (if (kv.1 == k) = true then (k, v) else kv) = kv by simp [h]]
      by_cases h2 : kv.1 = k'
      · rw [dictLookup_cons_of_eq _ h2, dictLookup_cons_of_eq _ h2]
      · rw [dictLookup_cons_of_ne _ h2, dictLookup_cons_of_ne _ h2]
        exact ih

theorem dictLookup_map_setKey_self (d : Dict) (k v : String) (h : dictContains d k = true) :
    dictLookup (d.map (fun kv => if kv.1 == k then (k, v) else kv)) k = some v := by
  induction d with
  | nil => simp [dictContains] at h
  | cons kv rest ih =>
    simp only [List.map_cons]
    by_cases hk : kv.1 = k
    · rw [show (if (kv.1 == k) = true then (k, v) else kv) = (k, v) by simp [hk]]
      rw [dictLookup_cons_of_eq _ rfl]
    · rw [show (if (kv.1 == k) = true then (k, v) else kv) = kv by simp [hk]]
      rw [dictLookup_cons_of_ne _ hk]
      refine ih ?_
      rw [dictContains_cons] at h
      simpa [hk] using h

theorem dictLookup_append_single (d : Dict) (k v k' : String) (h : dictContains d k = false) :
    dictLookup (d ++ [(k, v)]) k' = if k' = k then some v else dictLookup d k' := by
  induction d with
  | nil =>
    by_cases he : k' = k
    · subst he
      rw [List.nil_append, dictLookup_cons_of_eq _ rfl, if_pos rfl]
    · rw [List.nil_append, dictLookup_cons_of_ne _ (show (k, v).1 ≠ k' from fun hh => he hh.symm)]
      rw [if_neg he]
  | cons kv rest ih =>
    rw [dictContains_cons] at h
    simp only [Bool.or_eq_false_iff, beq_eq_false_iff_ne] at h
    obtain ⟨hk, hrest⟩ := h
    by_cases h2 : kv.1 = k'
    · rw [List.cons_append, dictLookup_cons_of_eq _ h2, dictLookup_cons_of_eq rest h2]
      rw [if_neg (fun he => hk (h2.trans he))]
    · rw [List.cons_append, dictLookup_cons_of_ne _ h2, ih hrest,
        dictLookup_cons_of_ne rest h2]

theorem dictLookup_dictSet (d : Dict) (k v k' : String) :
    dictLookup (dictSet d k v) k' = if k' = k then some v else dictLookup d k' := by
  unfold dictSet
  by_cases hc : dictContains d k = true
  · rw [if_pos hc]
    by_cases he : k' = k
    · subst he
      rw [if_pos rfl]
      exact dictLookup_map_setKey_self d k' v hc
    · rw [if_neg he]
      exact dictLookup_map_setKey_ne d k v k' he
  · rw [if_neg hc]
    exact dictLookup_append_single d k v k' (by simpa using hc)

theorem dictContains_dictSet (d : Dict) (k v k' : String) :
    dictContains (dictSet d k v) k' = (k' == k || dictContains d k') := by
  rw [dictContains_eq_isSome, dictContains_eq_isSome, dictLookup_dictSet]
  by_cases h : k' = k <;> simp [h]

theorem mergeRecord_nil (d : Dict) : mergeRecord d [] = d := rfl

theorem mergeRecord_cons (d : Dict) (kv : String × String) (f : Dict) :
    mergeRecord d (kv :: f) =
      mergeRecord
        (if dictContains d kv.1 then dictSet d (kv.1 ++ "_alt") kv.2
         else dictSet d kv.1 kv.2) f := rfl

theorem dictContains_mergeRecord_of (f : Dict) :
    ∀ (d : Dict) (k : String), dictContains d k = true →
      dictContains (mergeRecord d f) k = true := by
  induction f with
  | nil => intro d k h; simpa [mergeRecord_nil] using h
  | cons kv rest ih =>
    intro d k h
    rw [mergeRecord_cons]
    apply ih
    by_cases hc : dictContains d kv.1 = true <;>
      simp [hc, dictContains_dictSet, h]

theorem string_ne_empty_of_length_pos (s : String) (h : 0 < s.length) : s ≠ "" := by
  intro he
  subst he
  simp at h

theorem string_append_ne_self (x suf : String) (h : 0 < suf.length) : x ++ suf ≠ x := by
  intro he
  have := congrArg String.length he
  rw [String.length_append] at this
  omega

theorem dropWhile_brace_of_not_mem (u rest : List Char) (h : '}' ∉ u) :
    (u ++ '}' :: rest).dropWhile (fun c => c != '}') = '}' :: rest := by
  induction u with
  | nil => simp [List.dropWhile_cons]
  | cons c cs ihc =>
    have hc : c ≠ '}' := fun he => h (by simp [he])
    have hcs : '}' ∉ cs := fun hm => h (List.mem_cons_of_mem _ hm)
    rw [List.cons_append, List.dropWhile_cons, if_pos (by simpa using hc)]
    exact ihc hcs

theorem remove_namespace_no_brace (t : String) (h : '}' ∉ t.data) :
    remove_namespace t = t := by
  unfold remove_namespace
  rw [if_neg]
  intro hcon
  exact h (by simpa using hcon)

theorem remove_namespace_qualified (uri loc : String) (h : '}' ∉ uri.data) :
    remove_namespace ("\x7b" ++ uri ++ "\x7d" ++ loc) = loc := by
  obtain ⟨u⟩ := uri
  obtain ⟨l⟩ := loc
  have hu : '}' ∉ u := h
  have hdata : ("\x7b" ++ String.mk u ++ "\x7d" ++ String.mk l).data = '{' :: (u ++ '}' :: l) := by
    show (['{'] ++ u ++ ['}']) ++ l = '{' :: (u ++ '}' :: l)
    simp
  unfold remove_namespace
  rw [hdata, if_pos (by simp)]
  rw [List.dropWhile_cons, if_pos (by decide), dropWhile_brace_of_not_mem u l hu]
  rfl

theorem string_empty_append (s : String) : "" ++ s = s := by
  obtain ⟨l⟩ := s
  rfl

theorem underscore_prefix_ne_empty (s : String) : "_" ++ s ≠ "" := by
  apply string_ne_empty_of_length_pos
  rw [String.length_append]
  have h1 : ("_" : String).length = 1 := rfl
  omega

theorem underscore_join_ne_empty (x y : String) : x ++ "_" ++ y ≠ "" := by
  apply string_ne_empty_of_length_pos
  rw [String.length_append, String.length_append]
  have h1 : ("_" : String).length = 1 := rfl
  omega

theorem dictUpdate_nil (d : Dict) : dictUpdate d [] = d := rfl

theorem dictUpdate_cons (d : Dict) (kv : String × String) (kvs : List (String × String)) :
    dictUpdate d (kv :: kvs) = dictUpdate (dictSet d kv.1 kv.2) kvs := rfl

theorem dictLookup_dictUpdate_not_key (kvs : List (String × String)) :
    ∀ (d : Dict) (k : String), (∀ kv ∈ kvs, kv.1 ≠ k) →
      dictLookup (dictUpdate d kvs) k = dictLookup d k := by
  induction kvs with
  | nil => intro d k _; rfl
  | cons kv rest ih =>
    intro d k h
    rw [dictUpdate_cons, ih _ k (fun kv' hm => h kv' (List.mem_cons_of_mem _ hm)),
      dictLookup_dictSet, if_neg (fun he => h kv (List.mem_cons_self _ _) he.symm)]

theorem dictLookup_dictUpdate_mem (kvs : List (String × String)) :
    ∀ (d : Dict) (k v : String), (kvs.map Prod.fst).Nodup → (k, v) ∈ kvs →
      dictLookup (dictUpdate d kvs) k = some v := by
  induction kvs with
  | nil => intro d k v _ hm; simp at hm
  | cons kv rest ih =>
    intro d k v hnd hm
    rw [List.map_cons, List.nodup_cons] at hnd
    rcases List.mem_cons.mp hm with he | hm'
    · have hkv1 : kv.1 = k := by rw [← he]
      have hkv2 : kv.2 = v := by rw [← he]
      rw [dictUpdate_cons, hkv1, hkv2]
      rw [dictLookup_dictUpdate_not_key rest _ k ?_]
      · rw [dictLookup_dictSet, if_pos rfl]
      · rw [hkv1] at hnd
        exact fun kv' hm2 he' => hnd.1 (he' ▸ List.mem_map_of_mem Prod.fst hm2)
    · rw [dictUpdate_cons]
      exact ih _ k v hnd.2 hm'

theorem flatten_noattr_notext (t : String) (cs : List Element) (p : String) :
    flatten_element (.mk t [] none cs) p = flattenChildren cs p [] := rfl

theorem flatten_some_text (t : String) (attrib : Dict) (txt : String) (cs : List Element)
    (p : String) (hv : pyStrip txt ≠ "") :
    flatten_element (.mk t attrib (some txt) cs) p =
      dictUpdate (dictSet (flattenChildren cs p []) p (pyStrip txt))
        (attrib.map (fun kv => (p ++ "_" ++ remove_namespace kv.1, kv.2))) := by
  simp only [flatten_element]
  rw [if_pos hv]

theorem flattenChildren_append (l1 l2 : List Element) :
    ∀ (p : String) (acc : Dict),
      flattenChildren (l1 ++ l2) p acc = flattenChildren l2 p (flattenChildren l1 p acc) := by
  induction l1 with
  | nil => intro p acc; rfl
  | cons c cs ih =>
    intro p acc
    simp only [List.cons_append, flattenChildren]
    exact ih p _

theorem flattenChildren_single_root (ch : Element) (acc : Dict) :
    flattenChildren [ch] "" acc = dictUpdate acc (flatten_element ch (remove_namespace ch.tag)) := by
  simp [flattenChildren]

theorem flattenChildren_single (ch : Element) (p : String) (acc : Dict) (hp : p ≠ "") :
    flattenChildren [ch] p acc =
      dictUpdate acc (flatten_element ch (p ++ "_" ++ remove_namespace ch.tag)) := by
  simp [flattenChildren, hp]

theorem flatten_leaf (tg v K : String) (hv : pyStrip v ≠ "") :
    flatten_element (.mk tg [] (some v) []) K = [(K, pyStrip v)] := by
  rw [flatten_some_text tg [] v [] K hv]
  simp [flattenChildren, dictUpdate, dictSet, dictContains]

theorem parse_step_other (s : PState) (e : Element)
    (h1 : remove_namespace e.tag ≠ "situation")
    (h2 : remove_namespace e.tag ≠ "situationRecord") :
    parse_step s e = s := by
  unfold parse_step
  rw [if_neg h1, if_neg h2]

theorem parse_step_record (s : PState) (e : Element)
    (h : remove_namespace e.tag = "situationRecord") :
    parse_step s e =
      { store := s.store.set s.cur (mergeRecord (s.store.getD s.cur []) (flatten_element e "")),
        cur := s.cur, yields := s.yields ++ [s.cur] } := by
  unfold parse_step
  rw [if_neg (fun hs => by rw [h] at hs; exact absurd hs (by decide)), if_pos h]

theorem parse_step_situation (s : PState) (e : Element) (i : String)
    (h : remove_namespace e.tag = "situation") (hid : dictLookup e.attrib "id" = some i) :
    parse_step s e =
      { store := s.store ++ [[("situation_id", i)]], cur := s.store.length,
        yields := s.yields } := by
  unfold parse_step
  rw [if_pos h, hid]

/-- C1 counterexample: on the end-to-end scenario document (one grouping
element `id="S1"` containing one record element with attribute `unit="kmh"`
and child `<speed>80</speed>`), the sequence produced by
`parse_xml_to_dict` is NOT a single record carrying `situation_id = "S1"`,
`speed = "80"` and `situationRecord_unit = "kmh"`. -/
theorem c1_counterexample :
    ¬ ∃ r, emittedRows (parse_xml_to_dict c1doc) = [r] ∧
        dictLookup r "situation_id" = some "S1" ∧
        dictLookup r "speed" = some "80" ∧
        dictLookup r "situationRecord_unit" = some "kmh" := by
  rintro ⟨r, hr, hid, -, -⟩
  have hrows : emittedRows (parse_xml_to_dict c1doc) = [[("speed", "80"), ("_unit", "kmh")]] := by
    decide
  rw [hrows] at hr
  have he : r = [("speed", "80"), ("_unit", "kmh")] := by
    simpa using hr.symm
  subst he
  exact absurd hid (by decide)

/-- C1 (amended): on the end-to-end scenario document the sequence produced
by `parse_xml_to_dict` is exactly one record `{speed: "80", _unit: "kmh"}`:
the nested child under key `speed`, the record-element attribute under the
empty-prefix key `_unit`, and no grouping identifier, because the grouping
element's end event is processed only after the nested record has been
emitted. -/
theorem c1_scenario_actual :
    emittedRows (parse_xml_to_dict c1doc) = [[("speed", "80"), ("_unit", "kmh")]] := by
  decide

/-- C4 counterexample: three sibling record elements colliding on key `x`
with values `v1`, `v2`, `v3`. The value `v2` is discarded — it appears in
no emitted record — so the `_alt` resolution is not lossless for two
successive collisions on the same key. -/
theorem c4_counterexample :
    emittedRows (parse_xml_to_dict c4doc) =
      [[("x", "v1"), ("x_alt", "v3")], [("x", "v1"), ("x_alt", "v3")],
        [("x", "v1"), ("x_alt", "v3")]] ∧
    ∀ r ∈ emittedRows (parse_xml_to_dict c4doc), ∀ kv ∈ r, kv.2 ≠ "v2" := by
  exact ⟨by decide, by decide⟩

/-- C4 (amended): merging a flattened entry whose key `k` already exists in
the working record stores the new value under `k ++ "_alt"` — overwriting
any previous alternate value of `k` — and leaves the value at `k` itself
unchanged; so the resolution preserves the first-seen value but retains at
most one alternate (lossless only for a single collision). -/
theorem c4_alt_overwrites (d : Dict) (k v : String) (h : dictContains d k = true) :
    mergeRecord d [(k, v)] = dictSet d (k ++ "_alt") v ∧
    dictLookup (mergeRecord d [(k, v)]) k = dictLookup d k ∧
    dictLookup (mergeRecord d [(k, v)]) (k ++ "_alt") = some v := by
  have h1 : mergeRecord d [(k, v)] = dictSet d (k ++ "_alt") v := by
    rw [mergeRecord_cons, mergeRecord_nil]
    simp [h]
  have hne : k ≠ k ++ "_alt" :=
    fun he => string_append_ne_self k "_alt" (by decide) he.symm
  refine ⟨h1, ?_, ?_⟩
  · rw [h1, dictLookup_dictSet, if_neg hne]
  · rw [h1, dictLookup_dictSet, if_pos rfl]

theorem c4_witness :
    mergeRecord [("x", "v2alt")] [("x", "v3")] = dictSet [("x", "v2alt")] ("x" ++ "_alt") "v3" ∧
    dictLookup (mergeRecord [("x", "v2alt")] [("x", "v3")]) "x" =
      dictLookup [("x", "v2alt")] "x" ∧
    dictLookup (mergeRecord [("x", "v2alt")] [("x", "v3")]) ("x" ++ "_alt") = some "v3" :=
  c4_alt_overwrites [("x", "v2alt")] "x" "v3" (by decide)

/-- C6 counterexample: a subtree containing two descendant chains `a/b/c`,
the first with non-whitespace text "v". Flattened with the empty prefix,
the key `a_b_c` maps to "w" (the later chain's text), not to "v" — so a
subtree that contains such a chain with text "v" need not map `a_b_c`
to "v". -/
theorem c6_counterexample :
    dictLookup (flatten_element c6doc "") "a_b_c" = some "w" ∧
    (some "w" : Option String) ≠ some "v" := by
  exact ⟨by decide, by decide⟩

/-- C6 (amended): flattened keys are the underscore-joined,
namespace-stripped tag path. For any subtree whose root (no attributes, no
text) ends with a descendant chain `a/b/c` whose leaf has non-whitespace
text `v`, after arbitrary earlier siblings, the flattened mapping at the
path key `a_b_c` is the stripped text of `v`; the value is the last
contribution to that key in traversal order, so it is `v` whenever the
chain is the last contributor. -/
theorem c6_path_key (t a b c v : String) (pre : List Element)
    (ha : remove_namespace a ≠ "") (hv : pyStrip v ≠ "") :
    dictLookup (flatten_element (.mk t [] none (pre ++ [chainEl a b c v])) "")
        (remove_namespace a ++ "_" ++ remove_namespace b ++ "_" ++ remove_namespace c) =
      some (pyStrip v) := by
  rw [flatten_noattr_notext, flattenChildren_append]
  rw [flattenChildren_single_root]
  have htag : Element.tag (chainEl a b c v) = a := rfl
  rw [htag]
  have hchain : flatten_element (chainEl a b c v) (remove_namespace a) =
      [(remove_namespace a ++ "_" ++ remove_namespace b ++ "_" ++ remove_namespace c,
        pyStrip v)] := by
    show flatten_element (.mk a [] none [.mk b [] none [.mk c [] (some v) []]])
        (remove_namespace a) = _
    rw [flatten_noattr_notext, flattenChildren_single _ _ _ ha]
    have htb : Element.tag (.mk b [] none [.mk c [] (some v) []]) = b := rfl
    rw [htb]
    rw [show flatten_element (.mk b [] none [.mk c [] (some v) []])
          (remove_namespace a ++ "_" ++ remove_namespace b) =
        flattenChildren [.mk c [] (some v) []]
          (remove_namespace a ++ "_" ++ remove_namespace b) [] from rfl]
    rw [flattenChildren_single _ _ _ (underscore_join_ne_empty _ _)]
    have htc : Element.tag (.mk c [] (some v) []) = c := rfl
    rw [htc]
    rw [flatten_leaf _ _ _ hv]
    rfl
  rw [hchain]
  rw [show dictUpdate
        (flattenChildren pre "" [])
        [(remove_namespace a ++ "_" ++ remove_namespace b ++ "_" ++ remove_namespace c,
          pyStrip v)] =
      dictSet (flattenChildren pre "" [])
        (remove_namespace a ++ "_" ++ remove_namespace b ++ "_" ++ remove_namespace c)
        (pyStrip v) from rfl]
  rw [dictLookup_dictSet, if_pos rfl]

theorem c6_witness :
    dictLookup
      (flatten_element (.mk "r" [] none
        ([.mk "q" [] (some "z") []] ++ [chainEl "a" "b" "c" "v"])) "")
      (remove_namespace "a" ++ "_" ++ remove_namespace "b" ++ "_" ++ remove_namespace "c") =
      some (pyStrip "v") :=
  c6_path_key "r" "a" "b" "c" "v" [.mk "q" [] (some "z") []] (by decide) (by decide)

/-- C7 (confirmed): flattening an element with the empty prefix — as
`parse_xml_to_dict` does for every record tag — keys each root attribute
as `"_" ++ strippedAttributeName` (leading underscore, no tag-name prefix),
and keys the root's own non-whitespace text under the empty string, for
any children and any attribute list whose stripped names are distinct. -/
theorem c7_empty_prefix_keys (t : String) (attrib : Dict) (txt : String)
    (children : List Element)
    (hnodup : (attrib.map (fun kv => "_" ++ remove_namespace kv.1)).Nodup)
    (hv : pyStrip txt ≠ "") :
    (∀ kv ∈ attrib,
        dictLookup (flatten_element (.mk t attrib (some txt) children) "")
          ("_" ++ remove_namespace kv.1) = some kv.2) ∧
    dictLookup (flatten_element (.mk t attrib (some txt) children) "") "" =
      some (pyStrip txt) := by
  rw [flatten_some_text t attrib txt children "" hv]
  have hkeyfun : (fun kv : String × String => (("" : String) ++ "_" ++ remove_namespace kv.1, kv.2)) =
      (fun kv : String × String => ("_" ++ remove_namespace kv.1, kv.2)) := by
    funext kv
    rw [string_empty_append]
  rw [hkeyfun]
  constructor
  · intro kv hm
    apply dictLookup_dictUpdate_mem
    · have hmap : (attrib.map (fun kv : String × String => ("_" ++ remove_namespace kv.1, kv.2))).map
          Prod.fst = attrib.map (fun kv => "_" ++ remove_namespace kv.1) := by
        rw [List.map_map]
        rfl
      rw [hmap]
      exact hnodup
    · exact List.mem_map_of_mem _ hm
  · rw [dictLookup_dictUpdate_not_key]
    · rw [dictLookup_dictSet, if_pos rfl]
    · intro kv hm
      rcases List.mem_map.mp hm with ⟨kv0, -, hkv⟩
      rw [← hkv]
      exact underscore_prefix_ne_empty _

theorem c7_witness :
    dictLookup (flatten_element (.mk "situationRecord" [("unit", "kmh")] (some "open") []) "")
      ("_" ++ remove_namespace "unit") = some "kmh" ∧
    dictLookup (flatten_element (.mk "situationRecord" [("unit", "kmh")] (some "open") []) "")
      "" = some (pyStrip "open") := by
  have h := c7_empty_prefix_keys "situationRecord" [("unit", "kmh")] "open" []
    (by decide) (by decide)
  exact ⟨h.1 ("unit", "kmh") (List.mem_cons_self _ _), h.2⟩

/-- C10 (confirmed): a tag of the form `{uri}local` is reduced to `local`
before any use. In particular: flattening never inspects the root tag at
all; a `parse_step` on an element tagged `{uri}situationRecord` behaves
exactly as on the same element tagged `situationRecord`; and a qualified
attribute name is stripped the same way in key construction. -/
theorem c10_namespace_stripping :
    (∀ uri loc : String, '}' ∉ uri.data →
        remove_namespace ("\x7b" ++ uri ++ "\x7d" ++ loc) = loc) ∧
    (∀ (e : Element) (t' p : String),
        flatten_element (e.withTag t') p = flatten_element e p) ∧
    (∀ (s : PState) (e : Element) (uri : String), '}' ∉ uri.data →
        parse_step s (e.withTag ("\x7b" ++ uri ++ "\x7d" ++ "situationRecord")) =
          parse_step s (e.withTag "situationRecord")) ∧
    (∀ (t p k v uri : String), '}' ∉ uri.data → '}' ∉ k.data →
        flatten_element (.mk t [("\x7b" ++ uri ++ "\x7d" ++ k, v)] none []) p =
          flatten_element (.mk t [(k, v)] none []) p) := by
  refine ⟨remove_namespace_qualified, ?_, ?_, ?_⟩
  · intro e t' p
    cases e
    rfl
  · intro s e uri h
    cases e with
    | mk t a x cs =>
      show parse_step s (.mk ("\x7b" ++ uri ++ "\x7d" ++ "situationRecord") a x cs) =
        parse_step s (.mk "situationRecord" a x cs)
      unfold parse_step
      rw [show Element.tag (.mk ("\x7b" ++ uri ++ "\x7d" ++ "situationRecord") a x cs) =
            "\x7b" ++ uri ++ "\x7d" ++ "situationRecord" from rfl,
        show Element.tag (.mk "situationRecord" a x cs) = "situationRecord" from rfl,
        remove_namespace_qualified uri "situationRecord" h]
      rfl
  · intro t p k v uri h1 h2
    rw [show flatten_element (.mk t [("\x7b" ++ uri ++ "\x7d" ++ k, v)] none []) p =
          [(p ++ "_" ++ remove_namespace ("\x7b" ++ uri ++ "\x7d" ++ k), v)] from rfl,
      show flatten_element (.mk t [(k, v)] none []) p =
          [(p ++ "_" ++ remove_namespace k, v)] from rfl,
      remove_namespace_qualified uri k h1, remove_namespace_no_brace k h2]

theorem c10_witness :
    remove_namespace ("\x7b" ++ "http://example.org/ns" ++ "\x7d" ++ "situationRecord") =
      "situationRecord" ∧
    parse_step initState
        (Element.withTag (.mk "q" [] none [.mk "speed" [] (some "80") []])
          ("\x7b" ++ "http://example.org/ns" ++ "\x7d" ++ "situationRecord")) =
      parse_step initState
        (Element.withTag (.mk "q" [] none [.mk "speed" [] (some "80") []])
          "situationRecord") ∧
    flatten_element (.mk "situationRecord"
        [("\x7b" ++ "http://example.org/ns" ++ "\x7d" ++ "unit", "kmh")] none []) "" =
      flatten_element (.mk "situationRecord" [("unit", "kmh")] none []) "" :=
  ⟨c10_namespace_stripping.1 "http://example.org/ns" "situationRecord" (by decide),
   c10_namespace_stripping.2.2.1 initState (.mk "q" [] none [.mk "speed" [] (some "80") []])
     "http://example.org/ns" (by decide),
   c10_namespace_stripping.2.2.2 "situationRecord" "" "unit" "kmh" "http://example.org/ns"
     (by decide) (by decide)⟩

/-- C2 counterexample: on a grouping element with two record-tag siblings
sharing key `x` (values "v1" then "v2"), the first emitted record does NOT
stay free of `x_alt`: the generator yields the same working dict object
both times, so after the second merge the first emitted row also holds
`x_alt` and equals the second row. -/
theorem c2_counterexample :
    dictContains ((emittedRows (parse_xml_to_dict (c2doc "x" "v1" "v2"))).getD 0 [])
      "x_alt" = true ∧
    (emittedRows (parse_xml_to_dict (c2doc "x" "v1" "v2"))).getD 0 [] =
      (emittedRows (parse_xml_to_dict (c2doc "x" "v1" "v2"))).getD 1 [] := by
  exact ⟨by decide, by decide⟩

/-- C2 (amended): the parser merges each record tag's flattened output into
the working record itself (no copy) and yields a reference to that same
object. For two record-tag siblings under one grouping element whose
flattenings are `{x: v1}` and `{x: v2}`, the working record ends as
`{x: v1, x_alt: v2}` and both emitted rows, as later materialized by the
consumer, are that same mapping — `x_alt` appears in both rows, not only
the second. -/
theorem c2_alias_merge (x v1 v2 : String)
    (hx1 : x ≠ "situation") (hx2 : x ≠ "situationRecord") (hxb : '}' ∉ x.data)
    (hv1 : pyStrip v1 = v1) (hv1e : v1 ≠ "")
    (hv2 : pyStrip v2 = v2) (hv2e : v2 ≠ "") :
    emittedRows (parse_xml_to_dict (c2doc x v1 v2)) =
      [[(x, v1), (x ++ "_alt", v2)], [(x, v1), (x ++ "_alt", v2)]] := by
  have hstrip : remove_namespace x = x := remove_namespace_no_brace x hxb
  have hxalt : x ≠ x ++ "_alt" :=
    fun he => string_append_ne_self x "_alt" (by decide) he.symm
  have hflat : ∀ v : String, pyStrip v = v → v ≠ "" →
      flatten_element (recEl x v) "" = [(x, v)] := by
    intro v hpv hve
    show flatten_element (.mk "situationRecord" [] none [.mk x [] (some v) []]) "" = [(x, v)]
    rw [flatten_noattr_notext, flattenChildren_single_root,
      show Element.tag (.mk x [] (some v) []) = x from rfl, hstrip,
      flatten_leaf _ _ _ (by rw [hpv]; exact hve), hpv]
    rfl
  have hev : endEvents (c2doc x v1 v2) =
      [.mk x [] (some v1) [], recEl x v1, .mk x [] (some v2) [], recEl x v2,
        c2doc x v1 v2] := rfl
  have hother : ∀ (s : PState) (v : String),
      parse_step s (.mk x [] (some v) []) = s := by
    intro s v
    refine parse_step_other s _ ?_ ?_ <;>
      rw [show Element.tag (.mk x [] (some v) []) = x from rfl, hstrip]
    · exact hx1
    · exact hx2
  have hrtag : ∀ v : String, remove_namespace (Element.tag (recEl x v)) = "situationRecord" := by
    intro v
    show remove_namespace "situationRecord" = "situationRecord"
    decide
  have hmerge1 : mergeRecord [] [(x, v1)] = [(x, v1)] := by
    rw [mergeRecord_cons, mergeRecord_nil]
    simp [dictContains, dictSet]
  have hmerge2 : mergeRecord [(x, v1)] [(x, v2)] = [(x, v1), (x ++ "_alt", v2)] := by
    rw [mergeRecord_cons, mergeRecord_nil]
    rw [if_pos (by simp [dictContains])]
    unfold dictSet
    rw [if_neg (by simp [dictContains]; exact hxalt)]
    rfl
  have s2 : parse_step initState (recEl x v1) = ⟨[[(x, v1)]], 0, [0]⟩ := by
    rw [parse_step_record initState _ (hrtag v1), hflat v1 hv1 hv1e]
    show PState.mk ([[]].set 0 (mergeRecord ([[]].getD 0 []) [(x, v1)])) 0 ([] ++ [0]) = _
    rw [show ([[]] : List Dict).getD 0 [] = [] from rfl, hmerge1]
    rfl
  have s4 : parse_step ⟨[[(x, v1)]], 0, [0]⟩ (recEl x v2) =
      ⟨[[(x, v1), (x ++ "_alt", v2)]], 0, [0, 0]⟩ := by
    rw [parse_step_record _ _ (hrtag v2), hflat v2 hv2 hv2e]
    show PState.mk ([[(x, v1)]].set 0 (mergeRecord ([[(x, v1)]].getD 0 []) [(x, v2)])) 0
        ([0] ++ [0]) = _
    rw [show ([[(x, v1)]] : List Dict).getD 0 [] = [(x, v1)] from rfl, hmerge2]
    rfl
  have s5 : parse_step ⟨[[(x, v1), (x ++ "_alt", v2)]], 0, [0, 0]⟩ (c2doc x v1 v2) =
      ⟨[[(x, v1), (x ++ "_alt", v2)], [("situation_id", "S1")]], 1, [0, 0]⟩ := by
    rw [parse_step_situation _ (c2doc x v1 v2) "S1"
      (by show remove_namespace "situation" = "situation"; decide)
      (by show dictLookup [("id", "S1")] "id" = some "S1"; decide)]
    rfl
  show emittedRows (parseEvents initState (endEvents (c2doc x v1 v2))) = _
  rw [hev]
  show emittedRows (parse_step (parse_step (parse_step (parse_step
      (parse_step initState (.mk x [] (some v1) [])) (recEl x v1))
      (.mk x [] (some v2) [])) (recEl x v2)) (c2doc x v1 v2)) = _
  rw [hother initState v1, s2, hother _ v2, s4, s5]
  rfl

theorem c2_witness :
    emittedRows (parse_xml_to_dict (c2doc "x" "v1" "v2")) =
      [[("x", "v1"), ("x" ++ "_alt", "v2")], [("x", "v1"), ("x" ++ "_alt", "v2")]] :=
  c2_alias_merge "x" "v1" "v2" (by decide) (by decide) (by decide) (by decide) (by decide)
    (by decide) (by decide)

theorem parse_step_cases (s : PState) (e : Element) :
    parse_step s e = s ∨
    (∃ i, parse_step s e =
      ⟨s.store ++ [[("situation_id", i)]], s.store.length, s.yields⟩) ∨
    parse_step s e =
      ⟨s.store.set s.cur (mergeRecord (s.store.getD s.cur []) (flatten_element e "")),
        s.cur, s.yields ++ [s.cur]⟩ := by
  unfold parse_step
  by_cases h1 : remove_namespace e.tag = "situation"
  · rw [if_pos h1]
    cases hid : dictLookup e.attrib "id" with
    | some i => exact .inr (.inl ⟨i, rfl⟩)
    | none => exact .inl rfl
  · rw [if_neg h1]
    by_cases h2 : remove_namespace e.tag = "situationRecord"
    · rw [if_pos h2]
      exact .inr (.inr rfl)
    · rw [if_neg h2]
      exact .inl rfl

theorem parse_step_preserves_entry (s : PState) (e : Element) (i : Nat) (k : String)
    (hlen : i < s.store.length) (h : dictContains (s.store.getD i []) k = true) :
    i < (parse_step s e).store.length ∧
    dictContains ((parse_step s e).store.getD i []) k = true := by
  rcases parse_step_cases s e with hc | ⟨j, hc⟩ | hc <;> rw [hc]
  · exact ⟨hlen, h⟩
  · refine ⟨?_, ?_⟩
    · simp only [List.length_append, List.length_cons, List.length_nil]
      omega
    · rw [List.getD_append _ _ _ _ hlen]
      exact h
  · refine ⟨?_, ?_⟩
    · simpa [List.length_set] using hlen
    · by_cases he : i = s.cur
      · subst he
        rw [show ((s.store.set s.cur (mergeRecord (s.store.getD s.cur [])
              (flatten_element e ""))).getD s.cur []) =
            mergeRecord (s.store.getD s.cur []) (flatten_element e "") from by
            simp [List.getD, List.getElem?_set_self, hlen]]
        exact dictContains_mergeRecord_of _ _ _ h
      · rw [show ((s.store.set s.cur (mergeRecord (s.store.getD s.cur [])
              (flatten_element e ""))).getD i []) = s.store.getD i [] from by
            simp [List.getD, List.getElem?_set_ne (fun hh => he hh.symm)]]
        exact h

theorem parseEvents_preserves_entry (events : List Element) :
    ∀ (s : PState) (i : Nat) (k : String), i < s.store.length →
      dictContains (s.store.getD i []) k = true →
      i < (parseEvents s events).store.length ∧
      dictContains ((parseEvents s events).store.getD i []) k = true := by
  induction events with
  | nil => exact fun s i k h1 h2 => ⟨h1, h2⟩
  | cons e rest ih =>
    intro s i k h1 h2
    have hstep := parse_step_preserves_entry s e i k h1 h2
    exact ih (parse_step s e) i k hstep.1 hstep.2

theorem parseEvents_yields_grow (events : List Element) :
    ∀ s : PState, ∃ t, (parseEvents s events).yields = s.yields ++ t := by
  induction events with
  | nil => exact fun s => ⟨[], by simp [parseEvents]⟩
  | cons e rest ih =>
    intro s
    rcases ih (parse_step s e) with ⟨t, ht⟩
    have hpe : parseEvents s (e :: rest) = parseEvents (parse_step s e) rest := rfl
    rcases parse_step_cases s e with hc | ⟨j, hc⟩ | hc
    · exact ⟨t, by rw [hpe, ht, hc]⟩
    · exact ⟨t, by rw [hpe, ht, hc]⟩
    · refine ⟨s.cur :: t, ?_⟩
      rw [hpe, ht, hc]
      show (s.yields ++ [s.cur]) ++ t = s.yields ++ s.cur :: t
      rw [List.append_assoc]
      rfl

theorem parse_step_good (s : PState) (e : Element)
    (h1 : s.cur < s.store.length)
    (h2 : dictContains (s.store.getD s.cur []) "situation_id" = true) :
    (parse_step s e).cur < (parse_step s e).store.length ∧
    dictContains ((parse_step s e).store.getD (parse_step s e).cur [])
      "situation_id" = true := by
  rcases parse_step_cases s e with hc | ⟨j, hc⟩ | hc <;> rw [hc]
  · exact ⟨h1, h2⟩
  · refine ⟨?_, ?_⟩
    · simp
    · show dictContains ((s.store ++ [[("situation_id", j)]]).getD s.store.length []) _ = true
      rw [show (s.store ++ [[("situation_id", j)]]).getD s.store.length [] =
          [("situation_id", j)] from by simp [List.getD_append_right]]
      simp [dictContains]
  · refine ⟨?_, ?_⟩
    · simpa [List.length_set] using h1
    · show dictContains ((s.store.set s.cur (mergeRecord (s.store.getD s.cur [])
          (flatten_element e ""))).getD s.cur []) _ = true
      rw [show ((s.store.set s.cur (mergeRecord (s.store.getD s.cur [])
            (flatten_element e ""))).getD s.cur []) =
          mergeRecord (s.store.getD s.cur []) (flatten_element e "") from by
          simp [List.getD, List.getElem?_set_self, h1]]
      exact dictContains_mergeRecord_of _ _ _ h2

theorem parse_step_yield_entry (s : PState) (e : Element)
    (h1 : s.cur < s.store.length)
    (h2 : dictContains (s.store.getD s.cur []) "situation_id" = true) :
    (parse_step s e).yields = s.yields ∨
    ((parse_step s e).yields = s.yields ++ [s.cur] ∧
      s.cur < (parse_step s e).store.length ∧
      dictContains ((parse_step s e).store.getD s.cur []) "situation_id" = true) := by
  rcases parse_step_cases s e with hc | ⟨j, hc⟩ | hc <;> rw [hc]
  · exact .inl rfl
  · exact .inl rfl
  · refine .inr ⟨rfl, ?_, ?_⟩
    · simpa [List.length_set] using h1
    · show dictContains ((s.store.set s.cur (mergeRecord (s.store.getD s.cur [])
          (flatten_element e ""))).getD s.cur []) _ = true
      rw [show ((s.store.set s.cur (mergeRecord (s.store.getD s.cur [])
            (flatten_element e ""))).getD s.cur []) =
          mergeRecord (s.store.getD s.cur []) (flatten_element e "") from by
          simp [List.getD, List.getElem?_set_self, h1]]
      exact dictContains_mergeRecord_of _ _ _ h2

theorem yields_after_good (post : List Element) :
    ∀ (s : PState),
      s.cur < s.store.length →
      dictContains (s.store.getD s.cur []) "situation_id" = true →
      ∀ i ∈ (parseEvents s post).yields.drop s.yields.length,
        dictContains ((parseEvents s post).store.getD i []) "situation_id" = true := by
  induction post with
  | nil =>
    intro s h1 h2 i hi
    rw [show parseEvents s [] = s from rfl, List.drop_length] at hi
    simp at hi
  | cons e rest ih =>
    intro s h1 h2 i hi
    have hstep := parse_step_good s e h1 h2
    have hpe : parseEvents s (e :: rest) = parseEvents (parse_step s e) rest := rfl
    rw [hpe] at hi ⊢
    rcases parseEvents_yields_grow rest (parse_step s e) with ⟨t, ht⟩
    rcases parse_step_yield_entry s e h1 h2 with hy | ⟨hy, hlt, hcont⟩
    · refine ih (parse_step s e) hstep.1 hstep.2 i ?_
      rw [ht, List.drop_left]
      rw [ht, hy, List.drop_left] at hi
      exact hi
    · rw [ht, hy, List.append_assoc, List.drop_left] at hi
      rcases List.mem_cons.mp hi with he | hm
      · subst he
        exact (parseEvents_preserves_entry rest (parse_step s e) s.cur "situation_id"
          hlt hcont).2
      · refine ih (parse_step s e) hstep.1 hstep.2 i ?_
        rw [ht, List.drop_left]
        exact hm

/-- C3 counterexample: a well-formed document whose only record element is
empty and not preceded by any grouping element. `parse_xml_to_dict` emits
exactly one record, and it is the empty mapping — neither non-empty nor
carrying the grouping-identifier field. -/
theorem c3_counterexample :
    ¬ ∀ r ∈ emittedRows (parse_xml_to_dict c3doc),
        r ≠ [] ∧ dictContains r "situation_id" = true := by
  intro hall
  have hmem : ([] : Dict) ∈ emittedRows (parse_xml_to_dict c3doc) := by decide
  exact (hall [] hmem).1 rfl

/-- C3 (amended): the grouping-identifier invariant holds only from the
first grouping end event onwards: every record emitted after an end event
of a grouping element carrying an `id` attribute contains the
`situation_id` field (and is hence non-empty); records emitted before any
such event may be empty and lack it. -/
theorem c3_rows_after_group (pre post : List Element) (sit : Element) (idv : String)
    (hsit : remove_namespace sit.tag = "situation")
    (hid : dictLookup sit.attrib "id" = some idv) :
    ∀ r ∈ (emittedRows (parseEvents initState (pre ++ sit :: post))).drop
        (parseEvents initState pre).yields.length,
      dictContains r "situation_id" = true ∧ r ≠ [] := by
  have hsplit : parseEvents initState (pre ++ sit :: post) =
      parseEvents (parse_step (parseEvents initState pre) sit) post := by
    show (pre ++ sit :: post).foldl parse_step initState = _
    rw [List.foldl_append]
    rfl
  have hstep : parse_step (parseEvents initState pre) sit =
      ⟨(parseEvents initState pre).store ++ [[("situation_id", idv)]],
        (parseEvents initState pre).store.length,
        (parseEvents initState pre).yields⟩ :=
    parse_step_situation _ sit idv hsit hid
  have hgood1 : (parse_step (parseEvents initState pre) sit).cur <
      (parse_step (parseEvents initState pre) sit).store.length := by
    rw [hstep]
    simp
  have hgood2 : dictContains
      ((parse_step (parseEvents initState pre) sit).store.getD
        (parse_step (parseEvents initState pre) sit).cur []) "situation_id" = true := by
    rw [hstep]
    show dictContains (((parseEvents initState pre).store ++
        [[("situation_id", idv)]]).getD (parseEvents initState pre).store.length []) _ = true
    rw [show ((parseEvents initState pre).store ++
          [[("situation_id", idv)]]).getD (parseEvents initState pre).store.length [] =
        [("situation_id", idv)] from by simp [List.getD_append_right]]
    simp [dictContains]
  intro r hr
  rw [hsplit, emittedRows, ← List.map_drop] at hr
  rcases List.mem_map.mp hr with ⟨i, hi, hf⟩
  have hylen : (parse_step (parseEvents initState pre) sit).yields.length =
      (parseEvents initState pre).yields.length := by rw [hstep]
  rw [← hylen] at hi
  have hcont := yields_after_good post (parse_step (parseEvents initState pre) sit)
    hgood1 hgood2 i hi
  rw [hf] at hcont
  refine ⟨hcont, ?_⟩
  intro he
  rw [he] at hcont
  exact absurd hcont (by decide)

theorem c3_witness :
    dictContains [("situation_id", "S1"), ("a", "1")] "situation_id" = true ∧
    [("situation_id", "S1"), ("a", "1")] ≠ ([] : Dict) :=
  c3_rows_after_group [] [.mk "situationRecord" [] none [.mk "a" [] (some "1") []]]
    (.mk "situation" [("id", "S1")] none []) "S1" (by decide) (by decide)
    [("situation_id", "S1"), ("a", "1")] (by decide)

theorem chunkStep_eq (B : Nat) (temps : List (List Dict)) (chunks : List Dict) (idx : Nat)
    (r : Dict) :
    chunkStep B (temps, chunks, idx) r =
      if (idx + 1) % B == 0 && !(if r.isEmpty then chunks else chunks ++ [r]).isEmpty
      then (temps ++ [if r.isEmpty then chunks else chunks ++ [r]], [], idx + 1)
      else (temps, if r.isEmpty then chunks else chunks ++ [r], idx + 1) := rfl

theorem chunk_fold_join (B : Nat) (l : List Dict) :
    ∀ (temps : List (List Dict)) (chunks : List Dict) (idx : Nat),
      (l.foldl (chunkStep B) (temps, chunks, idx)).1.flatten ++
        (l.foldl (chunkStep B) (temps, chunks, idx)).2.1 =
      temps.flatten ++ chunks ++ l.filter (fun r => !r.isEmpty) := by
  induction l with
  | nil =>
    intro temps chunks idx
    simp
  | cons r rs ih =>
    intro temps chunks idx
    rw [List.foldl_cons, chunkStep_eq]
    by_cases hre : r.isEmpty
    · rw [if_pos hre]
      by_cases hfl : ((idx + 1) % B == 0 && !chunks.isEmpty) = true
      · rw [if_pos hfl, ih]
        simp [List.filter_cons, hre]
      · rw [if_neg hfl, ih]
        simp [List.filter_cons, hre]
    · rw [if_neg hre]
      by_cases hfl : ((idx + 1) % B == 0 && !(chunks ++ [r]).isEmpty) = true
      · rw [if_pos hfl, ih]
        simp [List.filter_cons, hre, List.append_assoc]
      · rw [if_neg hfl, ih]
        simp [List.filter_cons, hre, List.append_assoc]

theorem chunk_fold_batches_nonempty (B : Nat) (l : List Dict) :
    ∀ (temps : List (List Dict)) (chunks : List Dict) (idx : Nat),
      (∀ b ∈ temps, b ≠ []) →
      ∀ b ∈ (l.foldl (chunkStep B) (temps, chunks, idx)).1, b ≠ [] := by
  induction l with
  | nil => exact fun temps chunks idx h => h
  | cons r rs ih =>
    intro temps chunks idx h
    rw [List.foldl_cons, chunkStep_eq]
    by_cases hfl : ((idx + 1) % B == 0 &&
        !(if r.isEmpty then chunks else chunks ++ [r]).isEmpty) = true
    · rw [if_pos hfl]
      refine ih _ _ _ ?_
      intro b hb
      rcases List.mem_append.mp hb with hb1 | hb2
      · exact h b hb1
      · rw [List.mem_singleton] at hb2
        subst hb2
        have hne := (Bool.and_eq_true _ _).mp hfl
        intro hbe
        rw [hbe] at hne
        exact absurd hne.2 (by decide)
    · rw [if_neg hfl]
      exact ih _ _ _ h

theorem tempBatches_flatten (B : Nat) (records : List Dict) :
    (tempBatches B records).flatten = records.filter (fun r => !r.isEmpty) := by
  have h := chunk_fold_join B records [] [] 0
  simp only [List.flatten_nil, List.nil_append] at h
  show (if (records.foldl (chunkStep B) ([], [], 0)).2.1.isEmpty
      then (records.foldl (chunkStep B) ([], [], 0)).1
      else (records.foldl (chunkStep B) ([], [], 0)).1 ++
        [(records.foldl (chunkStep B) ([], [], 0)).2.1]).flatten =
    records.filter (fun r => !r.isEmpty)
  by_cases hc : (records.foldl (chunkStep B) ([], [], 0)).2.1.isEmpty
  · rw [if_pos hc]
    have hnil : (records.foldl (chunkStep B) ([], [], 0)).2.1 = [] := by
      cases he : (records.foldl (chunkStep B) ([], [], 0)).2.1 with
      | nil => rfl
      | cons a as =>
        rw [he, List.isEmpty_cons] at hc
        exact absurd hc (by decide)
    rw [hnil, List.append_nil] at h
    exact h
  · rw [if_neg hc, List.flatten_append]
    rw [show ([(records.foldl (chunkStep B) ([], [], 0)).2.1] :
        List (List Dict)).flatten = (records.foldl (chunkStep B) ([], [], 0)).2.1 from by
      simp]
    exact h

theorem tempBatches_nonempty (B : Nat) (records : List Dict) :
    ∀ b ∈ tempBatches B records, b ≠ [] := by
  intro b hb
  have hfold := chunk_fold_batches_nonempty B records [] [] 0 (by simp)
  rw [show tempBatches B records =
      (if (records.foldl (chunkStep B) ([], [], 0)).2.1.isEmpty
       then (records.foldl (chunkStep B) ([], [], 0)).1
       else (records.foldl (chunkStep B) ([], [], 0)).1 ++
         [(records.foldl (chunkStep B) ([], [], 0)).2.1]) from rfl] at hb
  by_cases hc : (records.foldl (chunkStep B) ([], [], 0)).2.1.isEmpty
  · rw [if_pos hc] at hb
    exact hfold b hb
  · rw [if_neg hc] at hb
    rcases List.mem_append.mp hb with hb1 | hb2
    · exact hfold b hb1
    · rw [List.mem_singleton] at hb2
      subst hb2
      intro hbe
      rw [hbe] at hc
      exact hc (by decide)

theorem tempBatches_eq_nil_iff (B : Nat) (records : List Dict) :
    tempBatches B records = [] ↔ records.filter (fun r => !r.isEmpty) = [] := by
  constructor
  · intro h
    rw [← tempBatches_flatten B records, h]
    rfl
  · intro h
    have hfl : (tempBatches B records).flatten = [] := by
      rw [tempBatches_flatten B records, h]
    cases he : tempBatches B records with
    | nil => rfl
    | cons b bs =>
      rw [he] at hfl
      rw [List.flatten_cons] at hfl
      rcases List.append_eq_nil.mp hfl with ⟨hb, -⟩
      exact absurd hb (tempBatches_nonempty B records b (by rw [he]; exact List.mem_cons_self _ _))

theorem convertModel_error (B : Nat) (records : List Dict)
    (h : tempBatches B records = []) :
    convertModel B records = .error "No objects to concatenate" := by
  unfold convertModel
  rw [h]
  rfl

theorem convertModel_isEmpty_false (B : Nat) (records : List Dict)
    (h : tempBatches B records ≠ []) : (tempBatches B records).isEmpty = false := by
  cases he : tempBatches B records with
  | nil => exact absurd he h
  | cons b bs => rfl

theorem convert_output_char (B : Nat) (records : List Dict) :
    outputOf (convertModel B records) =
      if records.filter (fun r => !r.isEmpty) = [] then none
      else some (drop_duplicates (records.filter (fun r => !r.isEmpty))) := by
  by_cases hc : tempBatches B records = []
  · rw [convertModel_error B records hc, if_pos ((tempBatches_eq_nil_iff B records).mp hc)]
    rfl
  · have hne : ¬ records.filter (fun r => !r.isEmpty) = [] :=
      fun hh => hc ((tempBatches_eq_nil_iff B records).mpr hh)
    rw [if_neg hne, ← tempBatches_flatten B records]
    cases he : tempBatches B records with
    | nil => exact absurd he hc
    | cons b bs =>
      unfold convertModel
      rw [he]
      rfl

theorem foldl_erase_self (l : List String) :
    l.foldl (fun fs n => fs.erase n) l = [] := by
  induction l with
  | nil => rfl
  | cons n ns ih =>
    rw [List.foldl_cons, List.erase_cons_head]
    exact ih

theorem convertModel_ok_fields (B : Nat) (records : List Dict) (res : ConvResult)
    (h : convertModel B records = .ok res) :
    res.tempsRemaining = res.tempsCreated.foldl (fun fs n => fs.erase n) res.tempsCreated := by
  cases he : tempBatches B records with
  | nil =>
    rw [convertModel_error B records he] at h
    exact absurd h (by simp)
  | cons b bs =>
    unfold convertModel at h
    rw [he] at h
    simp only [List.isEmpty_cons, Bool.false_eq_true, if_false, Except.ok.injEq] at h
    rw [← h]

/-- C5 (confirmed): for every record sequence, the chunked pipeline with
the source's batch size 10000 — intermediate batches, concatenation in
creation order, removal of exact-duplicate rows — produces exactly the
table obtained by materializing the entire sequence as a single batch and
deduplicating it: chunked merging neither alters nor drops any
non-duplicate row, and only rows equal on all columns are removed. -/
theorem c5_chunk_merge_equiv (records : List Dict) :
    outputOf (convert_to_parquet records) = single_batch_output records := by
  show outputOf (convertModel 10000 records) =
    outputOf (convertModel (records.length + 1) records)
  rw [convert_output_char, convert_output_char]

/-- C8 (confirmed): whenever `convert_to_parquet` completes successfully,
every intermediate chunk file it created has been deleted — the run
removes each created name from the set of files it created, leaving
none. -/
theorem c8_cleanup (records : List Dict) (res : ConvResult)
    (h : convert_to_parquet records = .ok res) :
    res.tempsRemaining = [] := by
  rw [convertModel_ok_fields 10000 records res h]
  exact foldl_erase_self _

theorem c8_witness : ∃ res, convert_to_parquet [[("a", "1")]] = .ok res ∧
    res.tempsRemaining = [] := by
  refine ⟨_, rfl, c8_cleanup [[("a", "1")]] _ rfl⟩

/-- C9 (confirmed): on an input sequence with zero (truthy) records, zero
intermediate files are produced and `convert_to_parquet` fails like
`pd.concat([])` does — it never silently writes a final output file from
an empty input. -/
theorem c9_empty_input (records : List Dict) (h : ∀ r ∈ records, r = []) :
    convert_to_parquet records = .error "No objects to concatenate" := by
  have hfil : records.filter (fun r => !r.isEmpty) = [] := by
    induction records with
    | nil => rfl
    | cons r rs ih =>
      rw [List.filter_cons]
      rw [show r = [] from h r (List.mem_cons_self _ _)]
      exact ih (fun r' hr' => h r' (List.mem_cons_of_mem _ hr'))
  exact convertModel_error 10000 records ((tempBatches_eq_nil_iff 10000 records).mpr hfil)

theorem c9_witness : convert_to_parquet [] = .error "No objects to concatenate" :=
  c9_empty_input [] (by simp)
